import Mathlib

/-!
Verification of `keyv-dataloader` (`src/KeyvDataLoader.ts`).

The development shallowly embeds the cache-aware batch resolver
(`wrappedBatchLoadFn`), the per-key operations (`load`, `loadMany`,
`prime`, `clear`, `clearAll`) and the External Cache Store interface
(Keyv's `getMany` / `set` / `delete` / `clear`) that the class uses.

Modelling choices:
* JavaScript runtime values that can flow through the cache and the
  resolver are modelled by `JVal V`: a genuine payload (`.val`),
  `undefined` (`.undef`, the absent sentinel), or an `Error` instance
  carrying its message (`.err`).
* The External Cache Store is an association list of entries plus a
  flag saying whether its batch read rejects (to model a failing
  backend).  `getMany` returns one `JVal` per requested cache key,
  `undefined` for missing records, exactly like Keyv.
* Promise rejection is modelled with `Except`; the error type `WErr`
  distinguishes a cache-read rejection, an upstream (batch function)
  rejection and the two `throw new Error(...)` sites of the wrapper.
* The Batch Coalescer (the `dataloader` package) is an external
  collaborator; the small parts of its contract that the claims need
  are modelled from the spec (marked `Modelled from the spec:`).
  Note the class constructs it with `cache: false`, so its internal
  memoization cache is disabled.
* TTLs are carried by the code but have no observable effect without a
  clock; the model omits them.
-/

namespace KeyvDataLoader

variable {K V : Type} [DecidableEq V]

/-- A JavaScript value as seen by the loader: a payload, `undefined`
(the cache's absent sentinel), or an `Error` instance (a Fault),
identified by its message. -/
inductive JVal (V : Type) where
  | undef : JVal V
  | val : V → JVal V
  | err : String → JVal V
deriving DecidableEq, Repr

/-- The backing map of the External Cache Store: newest entry for a
cache key shadows older ones. -/
abbrev CacheEntries (V : Type) := List (String × JVal V)

/-- The store's `get`: `undefined` when no record exists. -/
def getOne (entries : CacheEntries V) (k : String) : JVal V :=
  match entries.lookup k with
  | some v => v
  | none => JVal.undef

/-- The store's `set`: the new record shadows any previous one. -/
def setOne (entries : CacheEntries V) (k : String) (v : JVal V) : CacheEntries V :=
  (k, v) :: entries

/-- The store's `delete`: removes every record for the key. -/
def deleteOne (entries : CacheEntries V) (k : String) : CacheEntries V :=
  entries.filter (fun p => p.1 ≠ k)

/-- The External Cache Store: its records plus a flag modelling a
backend whose batch read rejects (with the given message). -/
structure Store (V : Type) where
  entries : CacheEntries V
  readFault : Option String
deriving Repr

/-- Keyv's `getMany`: positionally aligned values, `undefined` at
missing records; rejects when the backend read fails. -/
def Store.getMany (s : Store V) (ks : List String) : Except String (List (JVal V)) :=
  match s.readFault with
  | some f => Except.error f
  | none => Except.ok (ks.map (getOne s.entries))

/-- A rejection of the wrapped batch function: the cache batch read
rejected, the upstream batch function rejected, or one of the two
`throw new Error(msg)` sites fired. -/
inductive WErr where
  | cacheRead : String → WErr
  | upstream : String → WErr
  | thrown : String → WErr
deriving DecidableEq, Repr

/-- The partition loop of `wrappedBatchLoadFn` (`keys.forEach`): walks
the keys paired with their cache-read results, collecting the
positional indices (counted from `i`) and the keys of the positions
whose cache result is `undefined`, in order. -/
def partitionAbsent : List (K × JVal V) → Nat → List Nat × List K
  | [], _ => ([], [])
  | (k, r) :: rest, i =>
    let p := partitionAbsent rest (i + 1)
    if r = JVal.undef then (i :: p.1, k :: p.2) else p

/-- The merge loop of `wrappedBatchLoadFn`
(`uncachedIndices.forEach((index, arrayIndex) => results[index] =
loadedValues[arrayIndex])`), with `a` the running `arrayIndex`. -/
def applyMerge (loadedValues : List (JVal V)) : List Nat → Nat → List (JVal V) → List (JVal V)
  | [], _, acc => acc
  | i :: rest, a, acc =>
    applyMerge loadedValues rest (a + 1) (acc.set i (loadedValues.getD a JVal.undef))

/-- The merged result array: cache-read results overwritten at the
uncached indices by the upstream results. -/
def mergedOf (cacheResults loadedValues : List (JVal V)) (uncachedIndices : List Nat) :
    List (JVal V) :=
  applyMerge loadedValues uncachedIndices 0 cacheResults

/-- The final conversion loops of `wrappedBatchLoadFn`: walking the
array and throwing `new Error(msg)` at the first `undefined`. -/
def checkFilled (l : List (JVal V)) (msg : String) : Except WErr (List (JVal V)) :=
  if l.any (fun x => x == JVal.undef) then Except.error (WErr.thrown msg) else Except.ok l

/-- Everything observable about one run of the wrapped batch function:
its result (or rejection), the store afterwards, and the traces of
upstream invocations, cache batch reads, and cache writes. -/
structure RunOut (K V : Type) where
  result : Except WErr (List (JVal V))
  store : Store V
  upstreamCalls : List (List K)
  cacheReads : List (List String)
  cacheWrites : List (String × JVal V)
deriving Repr

/-- The function `wrappedBatchLoadFn` (src/KeyvDataLoader.ts lines 53–115): maps
keys to cache keys, batch-reads the cache, partitions into cached and
uncached positions, short-circuits when nothing is uncached, otherwise
calls the user batch function once on the uncached keys, writes every
returned element back to the cache, merges positionally, and converts
the merged array, throwing on any `undefined` position. -/
def wrappedRun (ck : K → String) (blf : List K → Except String (List (JVal V)))
    (s : Store V) (keys : List K) : RunOut K V :=
  let cacheKeys := keys.map ck
  match s.getMany cacheKeys with
  | Except.error f => ⟨Except.error (WErr.cacheRead f), s, [], [cacheKeys], []⟩
  | Except.ok cacheResults =>
    let p := partitionAbsent (keys.zip cacheResults) 0
    if p.2.length = 0 then
      ⟨checkFilled cacheResults "Cache returned undefined value", s, [], [cacheKeys], []⟩
    else
      match blf p.2 with
      | Except.error e => ⟨Except.error (WErr.upstream e), s, [p.2], [cacheKeys], []⟩
      | Except.ok loadedValues =>
        let entries := p.2.enum.map (fun q => (ck q.2, loadedValues.getD q.1 JVal.undef))
        let s2 : Store V := ⟨entries.foldl (fun acc e => setOne acc e.1 e.2) s.entries, s.readFault⟩
        let merged := mergedOf cacheResults loadedValues p.1
        ⟨checkFilled merged "Result is unexpectedly undefined", s2, [p.2], [cacheKeys], entries⟩

/-- The loader facade: the configured cache-key normalization, the
user batch function, and the External Cache Store.  The DataLoader
instance it owns is constructed with `cache: false`, so it carries no
state of its own worth modelling. -/
structure Loader (K V : Type) where
  cacheKeyFn : K → String
  batchLoadFn : List K → Except String (List (JVal V))
  store : Store V

/-- A per-key rejection: either the whole batch failed (wrapped
function rejected) or the positional result was an `Error` instance. -/
inductive LoadErr where
  | batchErr : WErr → LoadErr
  | keyFault : String → LoadErr
deriving DecidableEq, Repr

/-- Outcome of dispatching one batch through the coalescer. -/
structure DispatchOut (K V : Type) where
  outcomes : List (Except LoadErr (JVal V))
  loader : Loader K V
  upstreamCalls : List (List K)
  cacheReads : List (List String)

/-- Modelled from the spec: the Batch Coalescer (the external
`dataloader` package, §6) invokes the wrapped batch function once with
the collected keys and distributes the results positionally — when the
call rejects, every key of the batch rejects with that same error;
when it resolves, a positional `Error` instance rejects that key alone
and any other value resolves it. -/
def dispatchBatch (L : Loader K V) (keys : List K) : DispatchOut K V :=
  let r := wrappedRun L.cacheKeyFn L.batchLoadFn L.store keys
  match r.result with
  | Except.error e =>
    ⟨keys.map (fun _ => Except.error (LoadErr.batchErr e)), { L with store := r.store },
      r.upstreamCalls, r.cacheReads⟩
  | Except.ok vals =>
    ⟨(List.range keys.length).map (fun i =>
        match vals.getD i JVal.undef with
        | JVal.err m => Except.error (LoadErr.keyFault m)
        | v => Except.ok v),
      { L with store := r.store }, r.upstreamCalls, r.cacheReads⟩

/-- Outcome of a single `load`. -/
structure LoadOut (K V : Type) where
  outcome : Except LoadErr (JVal V)
  loader : Loader K V
  upstreamCalls : List (List K)

/-- Modelled from the spec: `load(key)` delegates to the Coalescer's
single-key request (§4.2); with the memoization cache disabled the key
is dispatched in its scheduling tick's batch — here, a batch of its
own. -/
def load (L : Loader K V) (k : K) : LoadOut K V :=
  let d := dispatchBatch L [k]
  ⟨d.outcomes.getD 0 (Except.error (LoadErr.keyFault "missing result")), d.loader,
    d.upstreamCalls⟩

/-- Modelled from the spec: `loadMany(keys)` issues one load per key
through the Coalescer (§4.2); the same-tick requests form one batch,
and an empty input produces an empty output with no dispatch at all
(the coalescer never invokes the batch function on zero queued
loads). -/
def loadMany (L : Loader K V) (keys : List K) : DispatchOut K V :=
  if keys.length = 0 then ⟨[], L, [], []⟩ else dispatchBatch L keys

/-- The method `prime` (src/KeyvDataLoader.ts lines 175–188), with its
fire-and-forget cache accesses taken as having completed without
interference: `dataloader.prime` is a no-op (its cache is disabled);
when the value is not an `Error` instance, the store is read and the
value written only when no record existed. -/
def primeApplied (L : Loader K V) (k : K) (v : JVal V) : Loader K V :=
  match v with
  | JVal.err _ => L
  | v =>
    if getOne L.store.entries (L.cacheKeyFn k) = JVal.undef then
      { L with store := ⟨setOne L.store.entries (L.cacheKeyFn k) v, L.store.readFault⟩ }
    else L

/-- The method `clear` (src/KeyvDataLoader.ts lines 146–151), with its
fire-and-forget `cache.delete` taken as having completed. -/
def clearApplied (L : Loader K V) (k : K) : Loader K V :=
  { L with store := ⟨deleteOne L.store.entries (L.cacheKeyFn k), L.store.readFault⟩ }

/-- The method `clearAll` (src/KeyvDataLoader.ts lines 158–163), with its
fire-and-forget `cache.clear` taken as having completed. -/
def clearAllApplied (L : Loader K V) : Loader K V :=
  { L with store := ⟨[], L.store.readFault⟩ }

/-- A pending fire-and-forget store operation: `cache.delete(ck)`,
`cache.clear()`, or `prime`'s get-then-conditional-set unit. -/
inductive StoreOp (V : Type) where
  | del : String → StoreOp V
  | wipe : StoreOp V
  | checkThenSet : String → JVal V → StoreOp V
deriving DecidableEq, Repr

/-- Executing one pending store operation against the store's records. -/
def runOp (e : CacheEntries V) : StoreOp V → CacheEntries V
  | StoreOp.del k => deleteOne e k
  | StoreOp.wipe => []
  | StoreOp.checkThenSet k v => if getOne e k = JVal.undef then setOne e k v else e

/-- Executing a schedule of pending store operations in order. -/
def runOps (e : CacheEntries V) (ops : List (StoreOp V)) : CacheEntries V :=
  ops.foldl runOp e

/-- The method `clear` as written: returns `this` at once; the store delete is
only issued, not awaited. -/
def clearDeferred (L : Loader K V) (k : K) : Loader K V × List (StoreOp V) :=
  (L, [StoreOp.del (L.cacheKeyFn k)])

/-- The method `clearAll` as written: returns `this` at once; the store-wide
clear is only issued, not awaited. -/
def clearAllDeferred (L : Loader K V) : Loader K V × List (StoreOp V) :=
  (L, [StoreOp.wipe])

/-- The method `prime` as written: returns `this` at once; the conditional cache
write (get, then set when no record existed) is only issued, not
awaited, and nothing is issued for an `Error` instance. -/
def primeDeferred (L : Loader K V) (k : K) (v : JVal V) : Loader K V × List (StoreOp V) :=
  match v with
  | JVal.err _ => (L, [])
  | v => (L, [StoreOp.checkThenSet (L.cacheKeyFn k) v])

/-! ### Helper lemmas about the partition and merge loops -/

theorem partitionAbsent_cons_fst (k : K) (r : JVal V) (rest : List (K × JVal V)) (i : Nat) :
    (partitionAbsent ((k, r) :: rest) i).1 =
      if r = JVal.undef then i :: (partitionAbsent rest (i + 1)).1
      else (partitionAbsent rest (i + 1)).1 := by
  by_cases h : r = JVal.undef <;> simp [partitionAbsent, h]

theorem partitionAbsent_cons_snd (k : K) (r : JVal V) (rest : List (K × JVal V)) (i : Nat) :
    (partitionAbsent ((k, r) :: rest) i).2 =
      if r = JVal.undef then k :: (partitionAbsent rest (i + 1)).2
      else (partitionAbsent rest (i + 1)).2 := by
  by_cases h : r = JVal.undef <;> simp [partitionAbsent, h]

theorem partitionAbsent_snd_filter (g : K → JVal V) (keys : List K) :
    ∀ i : Nat,
      (partitionAbsent (keys.zip (keys.map g)) i).2 =
        keys.filter (fun k => g k == JVal.undef) := by
  induction keys with
  | nil => intro i; rfl
  | cons k ks ih =>
    intro i
    have hz : (k :: ks).zip (List.map g (k :: ks)) = (k, g k) :: ks.zip (List.map g ks) := rfl
    rw [hz, partitionAbsent_cons_snd, List.filter_cons]
    by_cases h : g k = JVal.undef
    · simp [h, ih]
    · simp [h, ih]

theorem checkFilled_eq_ok (l : List (JVal V)) (msg : String) (h : JVal.undef ∉ l) :
    checkFilled l msg = Except.ok l := by
  have hfalse : l.any (fun x => x == JVal.undef) = false := by
    simp only [List.any_eq_false, beq_iff_eq]
    intro x hx hxe
    exact h (hxe ▸ hx)
  simp [checkFilled, hfalse]

theorem checkFilled_eq_error (l : List (JVal V)) (msg : String) (h : JVal.undef ∈ l) :
    checkFilled l msg = Except.error (WErr.thrown msg) := by
  have htrue : l.any (fun x => x == JVal.undef) = true := by
    simp only [List.any_eq_true, beq_iff_eq]
    exact ⟨JVal.undef, h, rfl⟩
  simp [checkFilled, htrue]

/-! ### Theorems for the claims -/

/-- C2: for every non-empty batch whose cache batch read reports every
position present, the wrapped batch function returns the cache-read
results positionally and never invokes the user batch function. -/
theorem c2_all_cached_fast_path (ck : K → String)
    (blf : List K → Except String (List (JVal V))) (s : Store V) (keys : List K)
    (hrf : s.readFault = none) (hne : keys ≠ [])
    (hall : ∀ k ∈ keys, getOne s.entries (ck k) ≠ JVal.undef) :
    (wrappedRun ck blf s keys).result =
        Except.ok (keys.map (fun k => getOne s.entries (ck k))) ∧
      (wrappedRun ck blf s keys).upstreamCalls = [] := by
  obtain ⟨e, rf⟩ := s
  subst hrf
  have hmm : (keys.map ck).map (getOne e) = keys.map (fun k => getOne e (ck k)) := by
    rw [List.map_map]; rfl
  have hsnd : (partitionAbsent (keys.zip (keys.map (fun k => getOne e (ck k)))) 0).2 = [] := by
    rw [partitionAbsent_snd_filter]
    rw [List.filter_eq_nil_iff]
    intro k hk
    simpa using hall k hk
  have hnu : JVal.undef ∉ keys.map (fun k => getOne e (ck k)) := by
    intro hmem
    obtain ⟨k, hk, hke⟩ := List.mem_map.mp hmem
    exact hall k hk hke
  constructor <;>
    simp [wrappedRun, Store.getMany, hmm, hsnd, checkFilled_eq_ok _ _ hnu]

/-- C3: for every batch with at least one cache-absent position, the
user batch function is invoked exactly once, with exactly the keys at
cache-absent positions in their original relative order (so keys whose
values were found in the cache are never passed to it). -/
theorem c3_upstream_exactly_once (ck : K → String)
    (blf : List K → Except String (List (JVal V))) (s : Store V) (keys : List K)
    (hrf : s.readFault = none)
    (habs : ∃ k ∈ keys, getOne s.entries (ck k) = JVal.undef) :
    (wrappedRun ck blf s keys).upstreamCalls =
      [keys.filter (fun k => getOne s.entries (ck k) == JVal.undef)] := by
  obtain ⟨e, rf⟩ := s
  subst hrf
  have hmm : (keys.map ck).map (getOne e) = keys.map (fun k => getOne e (ck k)) := by
    rw [List.map_map]; rfl
  have hsnd : (partitionAbsent (keys.zip (keys.map (fun k => getOne e (ck k)))) 0).2 =
      keys.filter (fun k => getOne e (ck k) == JVal.undef) :=
    partitionAbsent_snd_filter _ _ 0
  obtain ⟨k, hk, hke⟩ := habs
  have hne : keys.filter (fun k => getOne e (ck k) == JVal.undef) ≠ [] := by
    intro hnil
    have : k ∈ keys.filter (fun k => getOne e (ck k) == JVal.undef) :=
      List.mem_filter.mpr ⟨hk, by simpa using hke⟩
    rw [hnil] at this
    exact List.not_mem_nil k this
  have hlen : ¬ (keys.filter (fun k => getOne e (ck k) == JVal.undef)).length = 0 := by
    simpa [List.length_eq_zero] using hne
  cases hblf : blf (keys.filter (fun k => getOne e (ck k) == JVal.undef)) <;>
    simp [wrappedRun, Store.getMany, hmm, hsnd, hlen, hblf]

/-! ### Concrete instances used by witnesses and counterexamples -/

/-- The identity cache-key normalization, for string keys. -/
def ckId : String → String := fun s => s

/-- A concrete upstream batch function: resolves each key to its
length, positionally. -/
def blfLen : List String → Except String (List (JVal Nat)) :=
  fun ks => Except.ok (ks.map (fun s => JVal.val s.length))

/-- A concrete store holding one record. -/
def storeB : Store Nat := ⟨[("b", JVal.val 2)], none⟩

/-- A concrete empty store. -/
def storeEmpty : Store Nat := ⟨[], none⟩

theorem c2_witness :
    (wrappedRun ckId blfLen storeB ["b"]).result =
        Except.ok (["b"].map (fun k => getOne storeB.entries (ckId k))) ∧
      (wrappedRun ckId blfLen storeB ["b"]).upstreamCalls = [] :=
  c2_all_cached_fast_path ckId blfLen storeB ["b"] rfl (by decide) (by decide)

theorem c3_witness :
    (wrappedRun ckId blfLen storeB ["a", "b"]).upstreamCalls =
      [["a", "b"].filter (fun k => getOne storeB.entries (ckId k) == JVal.undef)] :=
  c3_upstream_exactly_once ckId blfLen storeB ["a", "b"] rfl (by decide)

/-- C4 (code bug): with an empty cache and the batch `["e"]`, a
resolver that resolves with a per-key Fault (`Error("boom")`) at that
position makes the write-back step store that Fault: the write trace
records it and the store afterwards holds the Fault as the record for
`"e"`.  The code never filters `Error` instances out of `entries`,
contradicting the never-cache-Faults intent that `prime` enforces with
its own `instanceof Error` check. -/
theorem c4_fault_written_to_cache :
    (wrappedRun ckId (fun _ => Except.ok [JVal.err "boom"]) storeEmpty ["e"]).cacheWrites =
        [("e", JVal.err "boom")] ∧
      getOne (wrappedRun ckId (fun _ => Except.ok [JVal.err "boom"]) storeEmpty
          ["e"]).store.entries "e" = JVal.err "boom" := by
  constructor <;> rfl

/-- A concrete loader whose store already holds a record for `"k"`. -/
def loader5 : Loader String Nat := ⟨ckId, blfLen, ⟨[("k", JVal.val 10)], none⟩⟩

/-- C5 counterexample: priming `"k"` with a Fault neither clears the
existing cache record for `"k"` nor makes a subsequent load reject
with the fault — the record survives and the load returns the cached
value. -/
theorem c5_counterexample :
    getOne (primeApplied loader5 "k" (JVal.err "boom")).store.entries "k" = JVal.val 10 ∧
      (load (primeApplied loader5 "k" (JVal.err "boom")) "k").outcome =
        Except.ok (JVal.val 10) := by
  constructor <;> rfl

/-- C5 (amended): `prime(k, fault)` writes nothing to the External
Cache Store, but it also does not clear any existing cache entry, and
— the coalescer's memoization cache being disabled — it has no
observable effect at all: the loader state is unchanged and a
subsequent `load(k)` behaves exactly as if the prime had not happened
(serving the cached value when a record exists, performing a genuine
upstream fetch otherwise, never rejecting with the fault). -/
theorem c5_fault_prime_is_noop (L : Loader K V) (k : K) (msg : String) :
    primeApplied L k (JVal.err msg) = L ∧
      load (primeApplied L k (JVal.err msg)) k = load L k :=
  ⟨rfl, rfl⟩

/-- C7: when the cache batch read rejects during the partition step,
the whole batch fails: every key of the batch rejects with that same
error and the upstream batch function is never invoked. -/
theorem c7_read_failure_batchwide (L : Loader K V) (keys : List K) (f : String)
    (hrf : L.store.readFault = some f) :
    (dispatchBatch L keys).outcomes =
        keys.map (fun _ => Except.error (LoadErr.batchErr (WErr.cacheRead f))) ∧
      (dispatchBatch L keys).upstreamCalls = [] := by
  obtain ⟨ck, blf, e, rf⟩ := L
  have hrf' : rf = some f := hrf
  subst hrf'
  constructor <;> simp [dispatchBatch, wrappedRun, Store.getMany]

/-- A concrete loader whose store's batch read rejects. -/
def loader7 : Loader String Nat := ⟨ckId, blfLen, ⟨[], some "down"⟩⟩

theorem c7_witness :
    (dispatchBatch loader7 ["a", "b"]).outcomes =
        ["a", "b"].map (fun _ => Except.error (LoadErr.batchErr (WErr.cacheRead "down"))) ∧
      (dispatchBatch loader7 ["a", "b"]).upstreamCalls = [] :=
  c7_read_failure_batchwide loader7 ["a", "b"] "down" rfl

/-- C9 counterexample: on a zero-key batch the wrapped batch function
does not short-circuit before the store: it still issues one cache
batch read (with an empty key list), so its cache-read trace is not
empty. -/
theorem c9_counterexample :
    (wrappedRun ckId blfLen storeEmpty []).cacheReads = [[]] ∧
      (wrappedRun ckId blfLen storeEmpty []).cacheReads ≠ [] := by
  exact ⟨rfl, by decide⟩

/-- C9 (amended): an empty batch produces an empty result with no
upstream call, but the wrapped batch function still issues one cache
batch read carrying an empty key list; `loadMany([])` resolves to `[]`
without dispatching a batch at all — no cache read and no upstream
call happen on that path. -/
theorem c9_empty_batch (ck : K → String) (blf : List K → Except String (List (JVal V)))
    (s : Store V) (L : Loader K V) (hrf : s.readFault = none) :
    (wrappedRun ck blf s []).result = Except.ok [] ∧
      (wrappedRun ck blf s []).upstreamCalls = [] ∧
      (wrappedRun ck blf s []).cacheReads = [[]] ∧
      loadMany L [] = ⟨[], L, [], []⟩ := by
  obtain ⟨e, rf⟩ := s
  have hrf' : rf = none := hrf
  subst hrf'
  exact ⟨rfl, rfl, rfl, rfl⟩

theorem c9_witness :
    (wrappedRun ckId blfLen storeEmpty []).result = Except.ok [] ∧
      (wrappedRun ckId blfLen storeEmpty []).upstreamCalls = [] ∧
      (wrappedRun ckId blfLen storeEmpty []).cacheReads = [[]] ∧
      loadMany loader5 [] = ⟨[], loader5, [], []⟩ :=
  c9_empty_batch ckId blfLen storeEmpty loader5 rfl

/-- A concrete loader whose store holds `"k" ↦ 1`, for exhibiting the
clear/prime race. -/
def loader10 : Loader String Nat :=
  ⟨fun s => s, fun ks => Except.ok (ks.map (fun _ => JVal.val 0)), ⟨[("k", JVal.val 1)], none⟩⟩

/-- The pending store operations issued by the chain
`loader.clear("k").prime("k", 2)`. -/
def ops10 : List (StoreOp Nat) :=
  (clearDeferred loader10 "k").2 ++
    (primeDeferred (clearDeferred loader10 "k").1 "k" (JVal.val 2)).2

/-- C10: `clear`, `clearAll` and `prime` return the loader handle
itself synchronously — the store delete, store-wide clear and
conditional cache write they trigger are only issued, leaving the
returned handle with no signal of their completion — and the pending
operations of a chained `clear(k).prime(k, v)` race: executed in issue
order the new value lands, but with the delete landing after the
prime's existence check the key ends up absent and the primed value is
lost. -/
theorem c10_sync_return_fire_and_forget (L : Loader K V) (k : K) (v : JVal V) :
    (clearDeferred L k).1 = L ∧ (clearAllDeferred L).1 = L ∧ (primeDeferred L k v).1 = L ∧
      getOne (runOps loader10.store.entries ops10) "k" = JVal.val 2 ∧
      getOne (runOps loader10.store.entries ops10.reverse) "k" = JVal.undef := by
  refine ⟨rfl, rfl, ?_, rfl, rfl⟩
  cases v <;> rfl

/-! ### Store and load helper lemmas -/

theorem getOne_setOne (e : CacheEntries V) (k : String) (v : JVal V) :
    getOne (setOne e k v) k = v := by
  simp [getOne, setOne, List.lookup_cons]

theorem getOne_deleteOne (e : CacheEntries V) (k : String) :
    getOne (deleteOne e k) k = JVal.undef := by
  induction e with
  | nil => rfl
  | cons p rest ih =>
    obtain ⟨a, b⟩ := p
    by_cases h : a = k
    · simpa [deleteOne, List.filter_cons, h] using ih
    · have hb : (k == a) = false := by
        simp only [beq_eq_false_iff_ne, ne_eq]
        exact fun he => h he.symm
      simpa [deleteOne, List.filter_cons, h, getOne, List.lookup_cons, hb] using ih

/-- A `load` whose key the cache batch read reports present resolves
to the cached value, invokes no upstream resolver, and leaves the
loader unchanged. -/
theorem load_of_cached (L : Loader K V) (k : K) (w : V)
    (hrf : L.store.readFault = none)
    (hc : getOne L.store.entries (L.cacheKeyFn k) = JVal.val w) :
    load L k = ⟨Except.ok (JVal.val w), L, []⟩ := by
  obtain ⟨ck, blf, e, rf⟩ := L
  have hrf' : rf = none := hrf
  subst hrf'
  have hc' : getOne e (ck k) = JVal.val w := hc
  simp [load, dispatchBatch, wrappedRun, Store.getMany, partitionAbsent, hc', checkFilled,
    List.range_succ]

/-- C6: priming a value for an uncached key makes a subsequent load
return it without invoking the resolver; a second prime with a
different value does not overwrite (load still returns the first
value); clearing the key and then priming the second value makes load
return the second value. -/
theorem c6_prime_no_overwrite (L : Loader K V) (k : K) (v1 v2 : V)
    (hrf : L.store.readFault = none)
    (habs : getOne L.store.entries (L.cacheKeyFn k) = JVal.undef)
    (hne : v2 ≠ v1) :
    (load (primeApplied L k (JVal.val v1)) k).outcome = Except.ok (JVal.val v1) ∧
      (load (primeApplied L k (JVal.val v1)) k).upstreamCalls = [] ∧
      (load (primeApplied (load (primeApplied L k (JVal.val v1)) k).loader k
          (JVal.val v2)) k).outcome = Except.ok (JVal.val v1) ∧
      (load (primeApplied (clearApplied (load (primeApplied L k (JVal.val v1)) k).loader k)
          k (JVal.val v2)) k).outcome = Except.ok (JVal.val v2) := by
  set c := L.cacheKeyFn k with hcdef
  have hL1 : primeApplied L k (JVal.val v1) =
      { L with store := ⟨setOne L.store.entries c (JVal.val v1), L.store.readFault⟩ } := by
    simp [primeApplied, habs, hcdef]
  set L1 : Loader K V :=
    { L with store := ⟨setOne L.store.entries c (JVal.val v1), L.store.readFault⟩ } with hL1def
  have hck1 : L1.cacheKeyFn k = c := rfl
  have hget1 : getOne L1.store.entries (L1.cacheKeyFn k) = JVal.val v1 := by
    simpa [hL1def, hck1] using getOne_setOne L.store.entries c (JVal.val v1)
  have hload1 : load L1 k = ⟨Except.ok (JVal.val v1), L1, []⟩ :=
    load_of_cached L1 k v1 hrf hget1
  have hL2 : primeApplied L1 k (JVal.val v2) = L1 := by
    simp [primeApplied, hget1]
  have hclear : getOne (clearApplied L1 k).store.entries ((clearApplied L1 k).cacheKeyFn k) =
      JVal.undef := by
    simpa [clearApplied, hck1] using
      getOne_deleteOne (setOne L.store.entries c (JVal.val v1)) c
  have hL3 : primeApplied (clearApplied L1 k) k (JVal.val v2) =
      { clearApplied L1 k with
        store := ⟨setOne (clearApplied L1 k).store.entries c (JVal.val v2),
          (clearApplied L1 k).store.readFault⟩ } := by
    simp only [primeApplied, hclear, if_pos]
    rfl
  have hget3 : getOne (primeApplied (clearApplied L1 k) k (JVal.val v2)).store.entries
      ((primeApplied (clearApplied L1 k) k (JVal.val v2)).cacheKeyFn k) = JVal.val v2 := by
    rw [hL3]
    simpa using getOne_setOne (clearApplied L1 k).store.entries c (JVal.val v2)
  have hload3 : load (primeApplied (clearApplied L1 k) k (JVal.val v2)) k =
      ⟨Except.ok (JVal.val v2), primeApplied (clearApplied L1 k) k (JVal.val v2), []⟩ :=
    load_of_cached _ k v2 (by rw [hL3]; exact hrf) hget3
  rw [hL1]
  refine ⟨?_, ?_, ?_, ?_⟩
  · rw [hload1]
  · rw [hload1]
  · rw [hload1]
    show (load (primeApplied L1 k (JVal.val v2)) k).outcome = Except.ok (JVal.val v1)
    rw [hL2, hload1]
  · rw [hload1]
    show (load (primeApplied (clearApplied L1 k) k (JVal.val v2)) k).outcome =
      Except.ok (JVal.val v2)
    rw [hload3]

/-- A concrete loader with an empty cache, for the C6 witness. -/
def loader6 : Loader String Nat := ⟨ckId, blfLen, ⟨[], none⟩⟩

theorem c6_witness :
    (load (primeApplied loader6 "k" (JVal.val 1)) "k").outcome = Except.ok (JVal.val 1) ∧
      (load (primeApplied loader6 "k" (JVal.val 1)) "k").upstreamCalls = [] ∧
      (load (primeApplied (load (primeApplied loader6 "k" (JVal.val 1)) "k").loader "k"
          (JVal.val 2)) "k").outcome = Except.ok (JVal.val 1) ∧
      (load (primeApplied (clearApplied
          (load (primeApplied loader6 "k" (JVal.val 1)) "k").loader "k")
          "k" (JVal.val 2)) "k").outcome = Except.ok (JVal.val 2) :=
  c6_prime_no_overwrite loader6 "k" 1 2 rfl (by decide) (by decide)

/-! ### Characterization of the merge loop -/

theorem applyMerge_length (lv : List (JVal V)) :
    ∀ (idxs : List Nat) (a : Nat) (acc : List (JVal V)),
      (applyMerge lv idxs a acc).length = acc.length := by
  intro idxs
  induction idxs with
  | nil => intro a acc; rfl
  | cons i rest ih =>
    intro a acc
    rw [show applyMerge lv (i :: rest) a acc =
        applyMerge lv rest (a + 1) (acc.set i (lv.getD a JVal.undef)) from rfl]
    rw [ih, List.length_set]

theorem applyMerge_getElem?_notMem (lv : List (JVal V)) :
    ∀ (idxs : List Nat) (a j : Nat) (acc : List (JVal V)), j ∉ idxs →
      (applyMerge lv idxs a acc)[j]? = acc[j]? := by
  intro idxs
  induction idxs with
  | nil => intro a j acc _; rfl
  | cons i rest ih =>
    intro a j acc h
    have hji : i ≠ j := fun he => h (he ▸ List.mem_cons_self i rest)
    have hjr : j ∉ rest := fun hm => h (List.mem_cons_of_mem i hm)
    rw [show applyMerge lv (i :: rest) a acc =
        applyMerge lv rest (a + 1) (acc.set i (lv.getD a JVal.undef)) from rfl]
    rw [ih (a + 1) j _ hjr, List.getElem?_set_ne hji]

theorem applyMerge_getElem?_pos (lv : List (JVal V)) :
    ∀ (idxs : List Nat) (a : Nat) (acc : List (JVal V)) (pos : Nat),
      idxs.Pairwise (· < ·) → (∀ i ∈ idxs, i < acc.length) → pos < idxs.length →
      (applyMerge lv idxs a acc)[idxs.getD pos 0]? = some (lv.getD (a + pos) JVal.undef) := by
  intro idxs
  induction idxs with
  | nil =>
    intro a acc pos _ _ hpos
    exact absurd hpos (by simp)
  | cons i rest ih =>
    intro a acc pos hpw hbound hpos
    rw [show applyMerge lv (i :: rest) a acc =
        applyMerge lv rest (a + 1) (acc.set i (lv.getD a JVal.undef)) from rfl]
    cases pos with
    | zero =>
      have hnotmem : i ∉ rest := by
        intro hm
        exact lt_irrefl i ((List.pairwise_cons.mp hpw).1 i hm)
      rw [List.getD_cons_zero]
      rw [applyMerge_getElem?_notMem lv rest (a + 1) i _ hnotmem]
      rw [List.getElem?_set_self (hbound i (List.mem_cons_self i rest))]
      simp
    | succ pos' =>
      rw [List.getD_cons_succ]
      have hb : ∀ i' ∈ rest, i' < (acc.set i (lv.getD a JVal.undef)).length := by
        intro i' hi'
        rw [List.length_set]
        exact hbound i' (List.mem_cons_of_mem i hi')
      have := ih (a + 1) (acc.set i (lv.getD a JVal.undef)) pos'
        (List.pairwise_cons.mp hpw).2 hb (Nat.lt_of_succ_lt_succ (by simpa using hpos))
      have harith : a + 1 + pos' = a + (pos' + 1) := by omega
      rw [harith] at this
      exact this

/-! ### Characterization of the partition loop -/

theorem partitionAbsent_fst_length_eq (pairs : List (K × JVal V)) :
    ∀ i, (partitionAbsent pairs i).1.length = (partitionAbsent pairs i).2.length := by
  induction pairs with
  | nil => intro i; rfl
  | cons p rest ih =>
    intro i
    obtain ⟨k, r⟩ := p
    rw [partitionAbsent_cons_fst, partitionAbsent_cons_snd]
    by_cases h : r = JVal.undef <;> simp [h, ih]

theorem partitionAbsent_fst_bounds (pairs : List (K × JVal V)) :
    ∀ i j, j ∈ (partitionAbsent pairs i).1 → i ≤ j ∧ j < i + pairs.length := by
  induction pairs with
  | nil => intro i j h; exact absurd h (by simp [partitionAbsent])
  | cons p rest ih =>
    intro i j h
    obtain ⟨k, r⟩ := p
    rw [partitionAbsent_cons_fst] at h
    rw [List.length_cons]
    by_cases hr : r = JVal.undef
    · rw [if_pos hr] at h
      rcases List.mem_cons.mp h with he | hm
      · subst he; omega
      · have := ih (i + 1) j hm; omega
    · rw [if_neg hr] at h
      have := ih (i + 1) j h; omega

theorem partitionAbsent_fst_pairwise (pairs : List (K × JVal V)) :
    ∀ i, (partitionAbsent pairs i).1.Pairwise (· < ·) := by
  induction pairs with
  | nil => intro i; simp [partitionAbsent]
  | cons p rest ih =>
    intro i
    obtain ⟨k, r⟩ := p
    rw [partitionAbsent_cons_fst]
    by_cases hr : r = JVal.undef
    · rw [if_pos hr]
      refine List.pairwise_cons.mpr ⟨?_, ih (i + 1)⟩
      intro j hj
      have := (partitionAbsent_fst_bounds rest (i + 1) j hj).1
      omega
    · rw [if_neg hr]; exact ih (i + 1)

theorem partitionAbsent_mem_fst (pairs : List (K × JVal V)) :
    ∀ i t (p : K × JVal V), pairs[t]? = some p →
      ((i + t) ∈ (partitionAbsent pairs i).1 ↔ p.2 = JVal.undef) := by
  induction pairs with
  | nil => intro i t p h; exact absurd h (by simp)
  | cons q rest ih =>
    intro i t p h
    obtain ⟨k, r⟩ := q
    rw [partitionAbsent_cons_fst]
    cases t with
    | zero =>
      have hp : p = (k, r) := by simpa using h.symm
      subst hp
      by_cases hr : r = JVal.undef
      · rw [if_pos hr]
        simp [hr]
      · rw [if_neg hr]
        constructor
        · intro hm
          have := (partitionAbsent_fst_bounds rest (i + 1) (i + 0) hm).1
          omega
        · intro hp
          exact absurd hp hr
    | succ t' =>
      have h' : rest[t']? = some p := by simpa using h
      have hiff := ih (i + 1) t' p h'
      have harith : i + (t' + 1) = i + 1 + t' := by omega
      by_cases hr : r = JVal.undef
      · rw [if_pos hr, harith, List.mem_cons]
        constructor
        · rintro (he | hm)
          · omega
          · exact hiff.mp hm
        · intro hp
          exact Or.inr (hiff.mpr hp)
      · rw [if_neg hr, harith]
        exact hiff

theorem partitionAbsent_zip_mem (keys : List K) (cr : List (JVal V))
    (hl : cr.length = keys.length) (j : Nat) (hj : j < keys.length) :
    j ∈ (partitionAbsent (keys.zip cr) 0).1 ↔ cr.getD j JVal.undef = JVal.undef := by
  have hjc : j < cr.length := by omega
  have hz : (keys.zip cr)[j]? = some (keys[j], cr[j]) := by
    rw [List.getElem?_zip_eq_some]
    exact ⟨List.getElem?_eq_getElem hj, List.getElem?_eq_getElem hjc⟩
  have hmem := partitionAbsent_mem_fst (keys.zip cr) 0 j _ hz
  rw [Nat.zero_add] at hmem
  rw [hmem, List.getD_eq_getElem cr JVal.undef hjc]

/-! ### Path reduction lemmas for the wrapped batch function -/

theorem wrappedRun_fast (ck : K → String) (blf : List K → Except String (List (JVal V)))
    (e : CacheEntries V) (keys : List K)
    (hsnd : (partitionAbsent (keys.zip (keys.map (fun k => getOne e (ck k)))) 0).2 = []) :
    (wrappedRun ck blf (⟨e, none⟩ : Store V) keys).result =
      checkFilled (keys.map (fun k => getOne e (ck k))) "Cache returned undefined value" := by
  have hmm : (keys.map ck).map (getOne e) = keys.map (fun k => getOne e (ck k)) := by
    rw [List.map_map]; rfl
  simp [wrappedRun, Store.getMany, hmm, hsnd]

theorem wrappedRun_slow (ck : K → String) (blf : List K → Except String (List (JVal V)))
    (e : CacheEntries V) (keys : List K) (vals : List (JVal V))
    (hsnd : (partitionAbsent (keys.zip (keys.map (fun k => getOne e (ck k)))) 0).2 ≠ [])
    (hblf : blf (partitionAbsent (keys.zip (keys.map (fun k => getOne e (ck k)))) 0).2 =
      Except.ok vals) :
    (wrappedRun ck blf (⟨e, none⟩ : Store V) keys).result =
      checkFilled
        (mergedOf (keys.map (fun k => getOne e (ck k))) vals
          (partitionAbsent (keys.zip (keys.map (fun k => getOne e (ck k)))) 0).1)
        "Result is unexpectedly undefined" := by
  have hmm : (keys.map ck).map (getOne e) = keys.map (fun k => getOne e (ck k)) := by
    rw [List.map_map]; rfl
  have hlen0 : ¬ (partitionAbsent (keys.zip (keys.map (fun k => getOne e (ck k)))) 0).2.length
      = 0 := by
    simpa [List.length_eq_zero] using hsnd
  simp [wrappedRun, Store.getMany, hmm, hlen0, hblf]

/-- C1: for every batch (any mix of cached, uncached, duplicated keys)
with a well-behaved resolver answer for the absent subsequence, the
wrapped batch function resolves with an array of the batch's length in
which the positions the cache reported present carry the cache-read
value and the cache-absent positions carry the resolver's results, in
their relative order.  The third conjunct identifies the partition's
index list with the cache-absent positions. -/
theorem c1_positional_merge (ck : K → String)
    (blf : List K → Except String (List (JVal V))) (s : Store V) (keys : List K)
    (vals : List (JVal V)) (hrf : s.readFault = none)
    (hblf : blf (partitionAbsent
        (keys.zip (keys.map (fun k => getOne s.entries (ck k)))) 0).2 = Except.ok vals)
    (hlen : vals.length = (partitionAbsent
        (keys.zip (keys.map (fun k => getOne s.entries (ck k)))) 0).2.length)
    (hnv : JVal.undef ∉ vals) :
    ∃ res, (wrappedRun ck blf s keys).result = Except.ok res ∧
      res.length = keys.length ∧
      (∀ j, j < keys.length →
        (j ∈ (partitionAbsent
            (keys.zip (keys.map (fun k => getOne s.entries (ck k)))) 0).1 ↔
          (keys.map (fun k => getOne s.entries (ck k))).getD j JVal.undef = JVal.undef)) ∧
      (∀ j, j < keys.length →
        j ∉ (partitionAbsent
            (keys.zip (keys.map (fun k => getOne s.entries (ck k)))) 0).1 →
          res.getD j JVal.undef =
            (keys.map (fun k => getOne s.entries (ck k))).getD j JVal.undef) ∧
      (partitionAbsent (keys.zip (keys.map (fun k => getOne s.entries (ck k)))) 0).1.map
          (fun j => res.getD j JVal.undef) = vals := by
  obtain ⟨e, rf⟩ := s
  have hrf' : rf = none := hrf
  subst hrf'
  have hblf' : blf (partitionAbsent
      (keys.zip (keys.map (fun k => getOne e (ck k)))) 0).2 = Except.ok vals := hblf
  have hlen' : vals.length = (partitionAbsent
      (keys.zip (keys.map (fun k => getOne e (ck k)))) 0).2.length := hlen
  set cr : List (JVal V) := keys.map (fun k => getOne e (ck k)) with hcr
  have hcrlen : cr.length = keys.length := by rw [hcr, List.length_map]
  have hmemiff : ∀ j, j < keys.length →
      (j ∈ (partitionAbsent (keys.zip cr) 0).1 ↔ cr.getD j JVal.undef = JVal.undef) :=
    fun j hj => partitionAbsent_zip_mem keys cr hcrlen j hj
  have hfstlen : (partitionAbsent (keys.zip cr) 0).1.length = vals.length := by
    rw [partitionAbsent_fst_length_eq, hlen']
  by_cases hsnd : (partitionAbsent (keys.zip cr) 0).2 = []
  · -- fast path: everything was in the cache
    have hfst : (partitionAbsent (keys.zip cr) 0).1 = [] := by
      rw [← List.length_eq_zero, partitionAbsent_fst_length_eq, hsnd]
      rfl
    have hvals : vals = [] := by
      rw [← List.length_eq_zero, hlen', hsnd]
      rfl
    have hnum : JVal.undef ∉ cr := by
      intro hm
      obtain ⟨j, hj, hje⟩ := List.mem_iff_getElem.mp hm
      have hjk : j < keys.length := by omega
      have : j ∈ (partitionAbsent (keys.zip cr) 0).1 := by
        rw [hmemiff j hjk, List.getD_eq_getElem cr JVal.undef hj, hje]
      rw [hfst] at this
      exact List.not_mem_nil j this
    refine ⟨cr, ?_, hcrlen, hmemiff, fun j _ _ => rfl, ?_⟩
    · rw [wrappedRun_fast ck blf e keys hsnd]
      exact checkFilled_eq_ok cr _ hnum
    · rw [hfst, hvals]
      rfl
  · -- slow path: at least one key was uncached
    set merged : List (JVal V) :=
      mergedOf cr vals (partitionAbsent (keys.zip cr) 0).1 with hmdef
    have hbounds : ∀ i ∈ (partitionAbsent (keys.zip cr) 0).1, i < cr.length := by
      intro i hi
      have := (partitionAbsent_fst_bounds (keys.zip cr) 0 i hi).2
      rw [List.length_zip, hcrlen] at this
      omega
    have hpw := partitionAbsent_fst_pairwise (keys.zip cr) 0
    have hmlen : merged.length = keys.length := by
      rw [hmdef, mergedOf, applyMerge_length, hcrlen]
    have habsval : ∀ pos, pos < (partitionAbsent (keys.zip cr) 0).1.length →
        merged[(partitionAbsent (keys.zip cr) 0).1.getD pos 0]? =
          some (vals.getD pos JVal.undef) := by
      intro pos hpos
      have := applyMerge_getElem?_pos vals (partitionAbsent (keys.zip cr) 0).1 0 cr pos
        hpw hbounds hpos
      simpa [hmdef, mergedOf] using this
    have hpres : ∀ j, j ∉ (partitionAbsent (keys.zip cr) 0).1 → merged[j]? = cr[j]? := by
      intro j hj
      rw [hmdef, mergedOf]
      exact applyMerge_getElem?_notMem vals _ 0 j cr hj
    have hnum : JVal.undef ∉ merged := by
      intro hm
      obtain ⟨j, hj, hje⟩ := List.mem_iff_getElem.mp hm
      have hjk : j < keys.length := by omega
      by_cases hjm : j ∈ (partitionAbsent (keys.zip cr) 0).1
      · obtain ⟨pos, hpos, hposj⟩ := List.mem_iff_getElem.mp hjm
        have h1 := habsval pos hpos
        have h2 : (partitionAbsent (keys.zip cr) 0).1.getD pos 0 = j := by
          rw [List.getD_eq_getElem _ 0 hpos, hposj]
        rw [h2, List.getElem?_eq_getElem hj, hje] at h1
        have hposv : pos < vals.length := by omega
        have : vals[pos] = JVal.undef := by
          rw [← List.getD_eq_getElem vals JVal.undef hposv]
          exact (Option.some.injEq _ _ ▸ h1.symm : _)
        exact hnv (this ▸ List.getElem_mem hposv)
      · have h1 := hpres j hjm
        have hjc : j < cr.length := by omega
        rw [List.getElem?_eq_getElem hj, hje, List.getElem?_eq_getElem hjc] at h1
        have : cr.getD j JVal.undef = JVal.undef := by
          rw [List.getD_eq_getElem cr JVal.undef hjc, ← Option.some.injEq]
          exact h1.symm
        exact hjm ((hmemiff j hjk).mpr this)
    refine ⟨merged, ?_, hmlen, hmemiff, ?_, ?_⟩
    · rw [wrappedRun_slow ck blf e keys vals hsnd hblf']
      exact checkFilled_eq_ok merged _ hnum
    · intro j hj hjm
      have h1 := hpres j hjm
      have hjc : j < cr.length := by omega
      have hjmm : j < merged.length := by omega
      rw [List.getD_eq_getElem merged JVal.undef hjmm, List.getD_eq_getElem cr JVal.undef hjc]
      rw [List.getElem?_eq_getElem hjmm, List.getElem?_eq_getElem hjc] at h1
      exact Option.some.injEq _ _ ▸ h1
    · refine List.ext_getElem ?_ ?_
      · rw [List.length_map, hfstlen]
      · intro pos h1 h2
        rw [List.getElem_map]
        have hpos : pos < (partitionAbsent (keys.zip cr) 0).1.length := by
          simpa using h1
        have h3 := habsval pos hpos
        have hj : (partitionAbsent (keys.zip cr) 0).1.getD pos 0 =
            (partitionAbsent (keys.zip cr) 0).1[pos] := List.getD_eq_getElem _ 0 hpos
        rw [hj] at h3
        have hjb : (partitionAbsent (keys.zip cr) 0).1[pos] < merged.length := by
          have := hbounds _ (List.getElem_mem hpos)
          omega
        rw [List.getElem?_eq_getElem hjb] at h3
        rw [List.getD_eq_getElem merged JVal.undef hjb]
        rw [List.getD_eq_getElem vals JVal.undef h2] at h3
        exact Option.some.injEq _ _ ▸ h3

theorem c1_witness :
    ∃ res, (wrappedRun ckId blfLen storeB ["a", "b", "a", "c"]).result = Except.ok res ∧
      res.length = (["a", "b", "a", "c"] : List String).length ∧
      (∀ j, j < (["a", "b", "a", "c"] : List String).length →
        (j ∈ (partitionAbsent ((["a", "b", "a", "c"] : List String).zip
            ((["a", "b", "a", "c"] : List String).map
              (fun k => getOne storeB.entries (ckId k)))) 0).1 ↔
          ((["a", "b", "a", "c"] : List String).map
              (fun k => getOne storeB.entries (ckId k))).getD j JVal.undef = JVal.undef)) ∧
      (∀ j, j < (["a", "b", "a", "c"] : List String).length →
        j ∉ (partitionAbsent ((["a", "b", "a", "c"] : List String).zip
            ((["a", "b", "a", "c"] : List String).map
              (fun k => getOne storeB.entries (ckId k)))) 0).1 →
          res.getD j JVal.undef =
            ((["a", "b", "a", "c"] : List String).map
                (fun k => getOne storeB.entries (ckId k))).getD j JVal.undef) ∧
      (partitionAbsent ((["a", "b", "a", "c"] : List String).zip
          ((["a", "b", "a", "c"] : List String).map
            (fun k => getOne storeB.entries (ckId k)))) 0).1.map
          (fun j => res.getD j JVal.undef) = [JVal.val 1, JVal.val 1, JVal.val 1] :=
  c1_positional_merge ckId blfLen storeB ["a", "b", "a", "c"]
    [JVal.val 1, JVal.val 1, JVal.val 1] rfl rfl (by decide) (by decide)

/-! ### C8: no `undefined` escapes to the caller -/

theorem checkFilled_ok_not_mem (l l' : List (JVal V)) (msg : String)
    (h : checkFilled l msg = Except.ok l') : JVal.undef ∉ l' := by
  by_cases hany : l.any (fun x => x == JVal.undef) = true
  · simp [checkFilled, hany] at h
  · have hf : l.any (fun x => x == JVal.undef) = false := by
      cases hb : l.any (fun x => x == JVal.undef)
      · rfl
      · exact absurd hb hany
    simp [checkFilled, hf] at h
    subst h
    rw [List.any_eq_false] at hf
    intro hm
    exact hf JVal.undef hm (by simp)

theorem wrappedRun_upstream_error (ck : K → String)
    (blf : List K → Except String (List (JVal V))) (e : CacheEntries V) (keys : List K)
    (f : String)
    (hsnd : (partitionAbsent (keys.zip (keys.map (fun k => getOne e (ck k)))) 0).2 ≠ [])
    (hblf : blf (partitionAbsent (keys.zip (keys.map (fun k => getOne e (ck k)))) 0).2 =
      Except.error f) :
    (wrappedRun ck blf (⟨e, none⟩ : Store V) keys).result =
      Except.error (WErr.upstream f) := by
  have hmm : (keys.map ck).map (getOne e) = keys.map (fun k => getOne e (ck k)) := by
    rw [List.map_map]; rfl
  have hlen0 : ¬ (partitionAbsent (keys.zip (keys.map (fun k => getOne e (ck k)))) 0).2.length
      = 0 := by
    simpa [List.length_eq_zero] using hsnd
  simp [wrappedRun, Store.getMany, hmm, hlen0, hblf]

/-- C8: the wrapped batch function never resolves with an array
containing `undefined` — and whenever the merge (after a successful
upstream call) leaves some position unfilled, it rejects with the
distinct internal-invariant error `Error("Result is unexpectedly
undefined")` for the whole batch instead. -/
theorem c8_no_undefined_leaks (ck : K → String)
    (blf : List K → Except String (List (JVal V))) (s : Store V) (keys : List K) :
    (∀ l, (wrappedRun ck blf s keys).result = Except.ok l → JVal.undef ∉ l) ∧
      (∀ vals, s.readFault = none →
        (partitionAbsent (keys.zip (keys.map (fun k => getOne s.entries (ck k)))) 0).2 ≠ [] →
        blf (partitionAbsent (keys.zip (keys.map (fun k => getOne s.entries (ck k)))) 0).2 =
          Except.ok vals →
        JVal.undef ∈ mergedOf (keys.map (fun k => getOne s.entries (ck k))) vals
          (partitionAbsent (keys.zip (keys.map (fun k => getOne s.entries (ck k)))) 0).1 →
        (wrappedRun ck blf s keys).result =
          Except.error (WErr.thrown "Result is unexpectedly undefined")) := by
  obtain ⟨e, rf⟩ := s
  constructor
  · intro l hl
    cases rf with
    | some f => simp [wrappedRun, Store.getMany] at hl
    | none =>
      by_cases hsnd : (partitionAbsent (keys.zip (keys.map (fun k => getOne e (ck k)))) 0).2 = []
      · rw [wrappedRun_fast ck blf e keys hsnd] at hl
        exact checkFilled_ok_not_mem _ _ _ hl
      · cases hblf : blf (partitionAbsent
            (keys.zip (keys.map (fun k => getOne e (ck k)))) 0).2 with
        | error f =>
          rw [wrappedRun_upstream_error ck blf e keys f hsnd hblf] at hl
          exact absurd hl (by simp)
        | ok vals =>
          rw [wrappedRun_slow ck blf e keys vals hsnd hblf] at hl
          exact checkFilled_ok_not_mem _ _ _ hl
  · intro vals hrf hsnd hblf hmem
    have hrf' : rf = none := hrf
    subst hrf'
    rw [wrappedRun_slow ck blf e keys vals hsnd hblf]
    exact checkFilled_eq_error _ _ hmem

/-- A concrete upstream batch function that resolves with a
one-element array regardless of how many keys it was given. -/
def blfShort : List String → Except String (List (JVal Nat)) :=
  fun _ => Except.ok [JVal.val 1]

theorem c8_witness :
    (wrappedRun ckId blfShort storeEmpty ["a", "b"]).result =
      Except.error (WErr.thrown "Result is unexpectedly undefined") :=
  (c8_no_undefined_leaks ckId blfShort storeEmpty ["a", "b"]).2 [JVal.val 1] rfl
    (by decide) rfl (by decide)

end KeyvDataLoader
